import Mathlib

/-!
Shallow embedding of the `bevy_mod_fbx` loader (`src/loader.rs`) in Lean 4,
used to verify the natural-language specification of the crate.

The embedding translates the loader's pure logic directly from the Rust
source.  External collaborators (the `fbxcel_dom` document parser, bevy's
asset registry, image decoding, tangent generation) are modelled at their
interface, exactly as the spec delimits them: fallible accessors become
`Option`/`Except` valued fields, and the asset registry becomes an explicit
`LoaderState` record threaded through the functions, mirroring the
`&mut self` threading of `Loader` in the source.  `LoaderState` additionally
records an event log of external effects (asset registrations, image
decodes, material-loader invocations) so that claims of the form
"X is executed only once" can be stated.
-/

namespace BevyModFbx

/-! ## Handles and the asset-registry interface

Bevy's `Handle<T>` is either a strong handle or a weak handle, both carrying
the asset id; `Handle` equality in bevy compares asset ids only.  The loader
registers assets under string labels, so the asset id is modelled as the
label string.  `clone_weak` produces a weak handle with the same id
(`Handle::clone_weak` in bevy). -/

structure Handle where
  id : String
  strong : Bool
deriving DecidableEq, Repr

def Handle.clone_weak (h : Handle) : Handle :=
  { h with strong := false }

/-- `Handle::default()` in bevy: a weak handle with the default asset id. -/
def defaultHandle : Handle :=
  { id := "Handle::default", strong := false }

/-! ## Hierarchy data (`FbxObject`, from the crate's data model)

Modelled from the spec: `FbxObject` (the spec's SceneNode) lives in
`data.rs`, which is not under `src/`; per spec section 3 it is
`{ name, local transform, children ids }`.  The `transform` field is
computed by `fbx_transform.rs` (also not under `src/`) and plays no role in
which nodes are retained nor in the children-id lists, so it is omitted
here; retention and children are translated from `traverse_hierarchy_rec`
in `src/loader.rs`. -/
structure FbxObject where
  name : Option String
  children : List Nat
deriving DecidableEq, Repr

/-- A raw FBX model node as exposed by the document parser: object id,
name, subclass string, and child model nodes (`ModelHandle` /
`child_models()` in `fbxcel_dom`). -/
inductive ModelNode where
  | node (nid : Nat) (name : Option String) (subclass : String)
      (children : List ModelNode)

def ModelNode.nid : ModelNode → Nat
  | .node i _ _ _ => i

def ModelNode.name : ModelNode → Option String
  | .node _ n _ _ => n

def ModelNode.subclass : ModelNode → String
  | .node _ _ s _ => s

def ModelNode.children : ModelNode → List ModelNode
  | .node _ _ _ cs => cs

/-- The `FbxObject` that `traverse_hierarchy_rec` inserts for a retained
node: its name and the full unfiltered list of its raw children ids
(`node.child_models().map(|c| c.object_id()).collect()`). -/
def nodeObj (n : ModelNode) : FbxObject :=
  { name := n.name, children := n.children.map ModelNode.nid }

mutual

/-- Embedding of `traverse_hierarchy_rec` (src/loader.rs lines 673-703).
The `HashMap<ObjectId, FbxObject>` is modelled as an association list where
insertion conses the new binding (lookups see the newest binding first,
matching `HashMap::insert` followed by `HashMap::get`).  Returns the
updated map and the `mesh_leaf` boolean. -/
def traverseRec (n : ModelNode) (h : List (Nat × FbxObject)) :
    List (Nat × FbxObject) × Bool :=
  match n with
  | .node i nm sub cs =>
    let r := traverseList cs h
    let mesh_leaf := r.2 || (sub == "Mesh")
    if mesh_leaf then
      ((i, { name := nm, children := cs.map ModelNode.nid }) :: r.1, true)
    else
      (r.1, false)

def traverseList (cs : List ModelNode) (h : List (Nat × FbxObject)) :
    List (Nat × FbxObject) × Bool :=
  match cs with
  | [] => (h, false)
  | c :: rest =>
    let r := traverseRec c h
    let r' := traverseList rest r.1
    (r'.1, r.2 || r'.2)

end

/-- The hierarchy map built by `Loader::load`: each document root is
traversed into the shared map (`for root in &roots
{ traverse_hierarchy(*root, &mut hierarchy) }`). -/
def traverse_forest (roots : List ModelNode) : List (Nat × FbxObject) :=
  roots.foldl (fun h r => (traverseRec r h).1) []

mutual

/-- A node is "mesh-bearing": it is itself mesh-geometry-typed (subclass
`"Mesh"`) or some descendant is.  This mirrors the `mesh_leaf` computation
of `traverse_hierarchy_rec`. -/
def meshBearing (n : ModelNode) : Bool :=
  match n with
  | .node _ _ sub cs => meshBearingList cs || (sub == "Mesh")

def meshBearingList (cs : List ModelNode) : Bool :=
  match cs with
  | [] => false
  | c :: rest => meshBearing c || meshBearingList rest

end

mutual

/-- The entries `traverseRec` adds on top of the incoming map, newest
first. -/
def retainedEntries (n : ModelNode) : List (Nat × FbxObject) :=
  match n with
  | .node i nm sub cs =>
    if meshBearing (.node i nm sub cs) then
      (i, { name := nm, children := cs.map ModelNode.nid }) ::
        retainedEntriesList cs
    else
      retainedEntriesList cs

def retainedEntriesList (cs : List ModelNode) : List (Nat × FbxObject) :=
  match cs with
  | [] => []
  | c :: rest => retainedEntriesList rest ++ retainedEntries c

end

mutual

/-- All nodes of a subtree (the node itself and all descendants). -/
def allNodes (n : ModelNode) : List ModelNode :=
  match n with
  | .node i nm sub cs => .node i nm sub cs :: allNodesList cs

def allNodesList (cs : List ModelNode) : List ModelNode :=
  match cs with
  | [] => []
  | c :: rest => allNodes c ++ allNodesList rest

end

/-- All nodes walked from the document roots. -/
def forestNodes (roots : List ModelNode) : List ModelNode :=
  (roots.map allNodes).flatten

/-- Modelled from the spec: `FbxMesh` (the spec's MeshAsset) lives in
`data.rs`, which is not under `src/`; per spec section 3 it is
`{ name, primitive_handles, material_handles }` (field names as used by
`src/loader.rs`: `bevy_mesh_handles` and `materials`). -/
structure FbxMesh where
  name : Option String
  bevy_mesh_handles : List Handle
  materials : List Handle
deriving DecidableEq, Repr

/-- The entity subtree spawned by `spawn_scene_rec`: the node's name, one
`(material, bevy mesh)` child per primitive, and the recursively spawned
child nodes. -/
inductive SpawnedEntity where
  | mk (name : Option String) (primitives : List (Handle × Handle))
      (children : List SpawnedEntity)

def SpawnedEntity.children : SpawnedEntity → List SpawnedEntity
  | .mk _ _ cs => cs

/-- Embedding of `spawn_scene_rec` (src/loader.rs lines 151-182).  Looking
the current id up in the hierarchy map and returning early on `None` is
modelled by the `Option` result; `.none` means the node was skipped.  The
Rust recursion is structurally bounded by the (acyclic) document tree; the
embedding makes termination explicit with a fuel parameter, which does not
change the behaviour on any input the recursion terminates on. -/
def spawn_scene_rec (fuel : Nat) (current : Nat)
    (hierarchy : List (Nat × FbxObject)) (models : List (Nat × FbxMesh)) :
    Option SpawnedEntity :=
  match fuel with
  | 0 => none
  | fuel + 1 =>
    match List.lookup current hierarchy with
    | none => none
    | some node =>
      let primitives :=
        match List.lookup current models with
        | some mesh => mesh.materials.zip mesh.bevy_mesh_handles
        | none => []
      some (.mk node.name primitives
        (node.children.filterMap
          (fun c => spawn_scene_rec fuel c hierarchy models)))

/-! ## Hierarchy lemmas -/

mutual

theorem traverseRec_eq (n : ModelNode) (h : List (Nat × FbxObject)) :
    traverseRec n h = (retainedEntries n ++ h, meshBearing n) := by
  match n with
  | .node i nm sub cs =>
    rw [traverseRec, retainedEntries, meshBearing, traverseList_eq cs h]
    by_cases hb : (meshBearingList cs || (sub == "Mesh")) = true
    · simp [hb]
    · simp only [hb]
      simp only [Bool.not_eq_true] at hb
      simp [hb]

theorem traverseList_eq (cs : List ModelNode) (h : List (Nat × FbxObject)) :
    traverseList cs h = (retainedEntriesList cs ++ h, meshBearingList cs) := by
  match cs with
  | [] =>
    rw [traverseList, retainedEntriesList, meshBearingList]
    simp
  | c :: rest =>
    rw [traverseList, retainedEntriesList, meshBearingList,
      traverseRec_eq c h, traverseList_eq rest (retainedEntries c ++ h)]
    simp

end

mutual

theorem mem_retained_of_meshBearing (m n : ModelNode)
    (hb : meshBearing n = true) (hm : n ∈ allNodes m) :
    (n.nid, nodeObj n) ∈ retainedEntries m := by
  match m with
  | .node i nm sub cs =>
    rw [allNodes] at hm
    rw [retainedEntries]
    rcases List.mem_cons.mp hm with heq | htail
    · subst heq
      rw [if_pos hb]
      simp [ModelNode.nid, nodeObj, ModelNode.name, ModelNode.children]
    · have hrec := mem_retainedList_of_meshBearing cs n hb htail
      by_cases h2 : meshBearing (.node i nm sub cs) = true
      · rw [if_pos h2]
        exact List.mem_cons_of_mem _ hrec
      · rw [if_neg h2]
        exact hrec

theorem mem_retainedList_of_meshBearing (cs : List ModelNode) (n : ModelNode)
    (hb : meshBearing n = true) (hm : n ∈ allNodesList cs) :
    (n.nid, nodeObj n) ∈ retainedEntriesList cs := by
  match cs with
  | [] =>
    rw [allNodesList] at hm
    cases hm
  | c :: rest =>
    rw [allNodesList] at hm
    rw [retainedEntriesList]
    rcases List.mem_append.mp hm with h1 | h2
    · exact List.mem_append.mpr (Or.inr (mem_retained_of_meshBearing c n hb h1))
    · exact List.mem_append.mpr
        (Or.inl (mem_retainedList_of_meshBearing rest n hb h2))

end

mutual

theorem exists_of_mem_retained (m : ModelNode) (i : Nat) (v : FbxObject)
    (hm : (i, v) ∈ retainedEntries m) :
    ∃ n, n ∈ allNodes m ∧ meshBearing n = true ∧ i = n.nid ∧ v = nodeObj n := by
  match m with
  | .node a nm sub cs =>
    rw [retainedEntries] at hm
    by_cases hb : meshBearing (.node a nm sub cs) = true
    · rw [if_pos hb] at hm
      rcases List.mem_cons.mp hm with heq | ht
      · cases heq
        refine ⟨.node i nm sub cs, ?_, hb, rfl, rfl⟩
        rw [allNodes]
        exact List.mem_cons_self _ _
      · obtain ⟨n, hn, h⟩ := exists_of_mem_retainedList cs i v ht
        exact ⟨n, by rw [allNodes]; exact List.mem_cons_of_mem _ hn, h⟩
    · rw [if_neg hb] at hm
      obtain ⟨n, hn, h⟩ := exists_of_mem_retainedList cs i v hm
      exact ⟨n, by rw [allNodes]; exact List.mem_cons_of_mem _ hn, h⟩

theorem exists_of_mem_retainedList (cs : List ModelNode) (i : Nat)
    (v : FbxObject) (hm : (i, v) ∈ retainedEntriesList cs) :
    ∃ n, n ∈ allNodesList cs ∧ meshBearing n = true ∧ i = n.nid ∧
      v = nodeObj n := by
  match cs with
  | [] =>
    rw [retainedEntriesList] at hm
    cases hm
  | c :: rest =>
    rw [retainedEntriesList] at hm
    rcases List.mem_append.mp hm with h1 | h2
    · obtain ⟨n, hn, h⟩ := exists_of_mem_retainedList rest i v h1
      exact ⟨n, by rw [allNodesList]; exact List.mem_append.mpr (Or.inr hn), h⟩
    · obtain ⟨n, hn, h⟩ := exists_of_mem_retained c i v h2
      exact ⟨n, by rw [allNodesList]; exact List.mem_append.mpr (Or.inl hn), h⟩

end

/-- The entries of the whole forest traversal, newest root last (the last
root traversed sits on top of the map). -/
def forestRetained : List ModelNode → List (Nat × FbxObject)
  | [] => []
  | r :: rest => forestRetained rest ++ retainedEntries r

theorem traverse_forest_go (roots : List ModelNode)
    (acc : List (Nat × FbxObject)) :
    roots.foldl (fun h r => (traverseRec r h).1) acc =
      forestRetained roots ++ acc := by
  induction roots generalizing acc with
  | nil => simp [forestRetained]
  | cons r rest ih =>
    rw [List.foldl_cons, traverseRec_eq, ih, forestRetained]
    simp

theorem traverse_forest_eq (roots : List ModelNode) :
    traverse_forest roots = forestRetained roots := by
  rw [traverse_forest, traverse_forest_go]
  simp

theorem mem_forestRetained_iff (roots : List ModelNode) (i : Nat)
    (v : FbxObject) :
    (i, v) ∈ forestRetained roots ↔
      ∃ r, r ∈ roots ∧ (i, v) ∈ retainedEntries r := by
  induction roots with
  | nil => simp [forestRetained]
  | cons r rest ih =>
    rw [forestRetained, List.mem_append, ih]
    constructor
    · rintro (⟨r', hr', h⟩ | h)
      · exact ⟨r', List.mem_cons_of_mem _ hr', h⟩
      · exact ⟨r, List.mem_cons_self _ _, h⟩
    · rintro ⟨r', hr', h⟩
      rcases List.mem_cons.mp hr' with heq | ht
      · subst heq
        exact Or.inr h
      · exact Or.inl ⟨r', ht, h⟩

theorem mem_forestNodes_iff (roots : List ModelNode) (n : ModelNode) :
    n ∈ forestNodes roots ↔ ∃ r, r ∈ roots ∧ n ∈ allNodes r := by
  rw [forestNodes]
  simp only [List.mem_flatten, List.mem_map]
  constructor
  · rintro ⟨l, ⟨r, hr, rfl⟩, hn⟩
    exact ⟨r, hr, hn⟩
  · rintro ⟨r, hr, hn⟩
    exact ⟨allNodes r, ⟨r, hr, rfl⟩, hn⟩

theorem lookup_isSome_iff (k : Nat) (l : List (Nat × FbxObject)) :
    (List.lookup k l).isSome = true ↔ ∃ v, (k, v) ∈ l := by
  induction l with
  | nil => simp [List.lookup]
  | cons p rest ih =>
    obtain ⟨a, b⟩ := p
    rw [List.lookup]
    by_cases hk : k = a
    · subst hk
      simp
    · have : (k == a) = false := beq_false_of_ne hk
      rw [this]
      simp only [ih, List.mem_cons]
      constructor
      · rintro ⟨v, hv⟩
        exact ⟨v, Or.inr hv⟩
      · rintro ⟨v, hv | hv⟩
        · cases hv
          exact absurd rfl hk
        · exact ⟨v, hv⟩

theorem mem_of_lookup_eq_some {k : Nat} {v : FbxObject}
    {l : List (Nat × FbxObject)} (h : List.lookup k l = some v) :
    (k, v) ∈ l := by
  induction l with
  | nil => simp [List.lookup] at h
  | cons p rest ih =>
    obtain ⟨a, b⟩ := p
    rw [List.lookup] at h
    by_cases hk : k = a
    · subst hk
      rw [beq_self_eq_true] at h
      simp at h
      subst h
      exact List.mem_cons_self _ _
    · rw [beq_false_of_ne hk] at h
      exact List.mem_cons_of_mem _ (ih h)

theorem lookup_eq_some_of_unique {k : Nat} {v₀ : FbxObject}
    {l : List (Nat × FbxObject)} (hmem : (k, v₀) ∈ l)
    (huniq : ∀ v, (k, v) ∈ l → v = v₀) :
    List.lookup k l = some v₀ := by
  induction l with
  | nil => cases hmem
  | cons p rest ih =>
    obtain ⟨a, b⟩ := p
    rw [List.lookup]
    by_cases hk : k = a
    · subst hk
      rw [beq_self_eq_true]
      have : b = v₀ := huniq b (List.mem_cons_self _ _)
      rw [this]
    · rw [beq_false_of_ne hk]
      rcases List.mem_cons.mp hmem with heq | ht
      · cases heq
        exact absurd rfl hk
      · exact ih ht (fun v hv => huniq v (List.mem_cons_of_mem _ hv))

/-! ## Concrete example hierarchy used by witnesses -/

def exMesh : ModelNode := .node 2 (some "meshnode") "Mesh" []

def exLimb : ModelNode := .node 1 (some "limb") "Null" [exMesh]

def exDead : ModelNode := .node 3 (some "dead") "Null" []

def exRoot : ModelNode := .node 0 (some "root") "Null" [exLimb, exDead]

def exRoots : List ModelNode := [exRoot]

/-- **C1**: For every raw model node walked from the document roots (all
object ids distinct, as in a well-formed document), the node is present in
the resulting hierarchy map iff it is itself mesh-geometry-typed (subclass
`"Mesh"`) or at least one of its descendants is; every node with no
mesh-bearing descendant that is not itself mesh geometry is absent from
the map. -/
theorem hierarchy_mem_iff_meshBearing (roots : List ModelNode)
    (n : ModelNode)
    (hnodup : ((forestNodes roots).map ModelNode.nid).Nodup)
    (hn : n ∈ forestNodes roots) :
    (List.lookup n.nid (traverse_forest roots)).isSome = meshBearing n := by
  rw [traverse_forest_eq]
  cases hb : meshBearing n with
  | true =>
    obtain ⟨r, hr, hnr⟩ := (mem_forestNodes_iff roots n).mp hn
    have hmem := mem_retained_of_meshBearing r n hb hnr
    have hmem' : (n.nid, nodeObj n) ∈ forestRetained roots :=
      (mem_forestRetained_iff roots _ _).mpr ⟨r, hr, hmem⟩
    exact (lookup_isSome_iff _ _).mpr ⟨_, hmem'⟩
  | false =>
    cases hl : List.lookup n.nid (forestRetained roots) with
    | none => rfl
    | some v =>
      exfalso
      have hmem := mem_of_lookup_eq_some hl
      obtain ⟨r, hr, hmem'⟩ := (mem_forestRetained_iff roots _ _).mp hmem
      obtain ⟨d, hd, hdb, hid, _⟩ := exists_of_mem_retained r _ _ hmem'
      have hdf : d ∈ forestNodes roots :=
        (mem_forestNodes_iff roots d).mpr ⟨r, hr, hd⟩
      have hdn : d = n := List.inj_on_of_nodup_map hnodup hdf hn hid.symm
      rw [hdn, hb] at hdb
      exact Bool.false_ne_true hdb

/-- Witness for C1 at a concrete forest: the node `exDead` (id 3) has no
mesh-bearing descendant and is not mesh geometry, and is indeed absent
from the hierarchy map. -/
theorem hierarchy_mem_iff_meshBearing_witness :
    (List.lookup (ModelNode.nid exDead) (traverse_forest exRoots)).isSome =
      meshBearing exDead :=
  hierarchy_mem_iff_meshBearing exRoots exDead (by decide)
    (by simp [forestNodes, allNodes, allNodesList, exRoots, exRoot, exLimb,
      exDead, exMesh])

/-- **C7**: Every node retained in the hierarchy map stores the full
unfiltered list of its raw children ids (including pruned children), and
during scene assembly a child id absent from the hierarchy map is skipped
without error (`spawn_scene_rec` yields `none` for it, and a spawned
node's children are exactly the `filterMap` of its stored child ids). -/
theorem retained_children_unfiltered_and_spawn_skips
    (roots : List ModelNode) (n : ModelNode)
    (hnodup : ((forestNodes roots).map ModelNode.nid).Nodup)
    (hn : n ∈ forestNodes roots) (hb : meshBearing n = true) :
    List.lookup n.nid (traverse_forest roots) = some (nodeObj n)
    ∧ (nodeObj n).children = n.children.map ModelNode.nid
    ∧ (∀ fuel i hier models, List.lookup i hier = none →
        spawn_scene_rec fuel i hier models = none)
    ∧ (∀ fuel i hier models node,
        List.lookup i hier = some node →
        (spawn_scene_rec (fuel + 1) i hier models).map SpawnedEntity.children
          = some (node.children.filterMap
              (fun c => spawn_scene_rec fuel c hier models))) := by
  refine ⟨?_, rfl, ?_, ?_⟩
  · rw [traverse_forest_eq]
    obtain ⟨r, hr, hnr⟩ := (mem_forestNodes_iff roots n).mp hn
    have hmem := mem_retained_of_meshBearing r n hb hnr
    have hmem' : (n.nid, nodeObj n) ∈ forestRetained roots :=
      (mem_forestRetained_iff roots _ _).mpr ⟨r, hr, hmem⟩
    refine lookup_eq_some_of_unique hmem' ?_
    intro v hv
    obtain ⟨r', hr', hv'⟩ := (mem_forestRetained_iff roots _ _).mp hv
    obtain ⟨d, hd, _, hid, hvd⟩ := exists_of_mem_retained r' _ _ hv'
    have hdf : d ∈ forestNodes roots :=
      (mem_forestNodes_iff roots d).mpr ⟨r', hr', hd⟩
    have hdn : d = n := List.inj_on_of_nodup_map hnodup hdf hn hid.symm
    rw [hvd, hdn]
  · intro fuel i hier models hnone
    cases fuel with
    | zero => rfl
    | succ fuel =>
      rw [spawn_scene_rec, hnone]
  · intro fuel i hier models node hsome
    rw [spawn_scene_rec, hsome]
    rfl

/-- Witness for C7 at a concrete forest: the retained node `exLimb` stores
its full raw children ids, and a missing id (99) is skipped by
`spawn_scene_rec`. -/
theorem retained_children_unfiltered_and_spawn_skips_witness :
    List.lookup (ModelNode.nid exLimb) (traverse_forest exRoots) =
      some (nodeObj exLimb)
    ∧ spawn_scene_rec 1 99 (traverse_forest exRoots) [] = none := by
  have h := retained_children_unfiltered_and_spawn_skips exRoots exLimb
    (by decide)
    (by simp [forestNodes, allNodes, allNodesList, exRoots, exRoot, exLimb,
      exDead, exMesh])
    (by decide)
  exact ⟨h.1, h.2.2.1 1 99 (traverse_forest exRoots) [] (by decide)⟩

/-! ## Images and textures

`f32`/`f64` coordinates are embedded as exact rationals; images are
modelled at the interface granted by the spec (decoded content plus the
sampler data the loader actually sets). -/

abbrev Vec2 := ℚ × ℚ

abbrev Vec3 := ℚ × ℚ × ℚ

inductive WrapMode where
  | Repeat
  | Clamp
deriving DecidableEq, Repr

inductive AddressMode where
  | Repeat
  | ClampToEdge
deriving DecidableEq, Repr

/-- The wrap-mode translation of `Loader::get_texture`. -/
def wrapToAddress : WrapMode → AddressMode
  | .Repeat => .Repeat
  | .Clamp => .ClampToEdge

/-- A decoded image: opaque content plus the sampler address modes the
loader sets. -/
structure Image where
  content : Nat
  samplerU : AddressMode
  samplerV : AddressMode
deriving DecidableEq, Repr

/-- A video clip object.  `decoded` collapses the external byte
acquisition (embedded content or relative-path read) and `Image::from_buffer`
decoding into one fallible interface step, as spec section 6 delimits
them; `none` means the backing data could not be read or decoded. -/
structure VideoClip where
  vid : Nat
  decoded : Option Nat
deriving DecidableEq, Repr

/-- A texture object handle: name/id, the two fallible wrap-mode
properties, and the backing video clip. -/
structure TextureObj where
  name : Option String
  tid : Nat
  wrapModeU : Option WrapMode
  wrapModeV : Option WrapMode
  videoClip : Option VideoClip
deriving DecidableEq, Repr

/-! ## Errors and loader state -/

/-- The distinct failure points of the loader, one constructor per
`bail!`/`ok_or_else`/`context` site the embedding reaches. -/
inductive LoadError where
  | polygonVertices
  | triangulation
  | controlPointIndex
  | controlPoint
  | noLayer
  | noNormals
  | normalResolve
  | noUv
  | uvResolve
  | lengthMismatch (pos uv normals : Nat)
  | materialsNotFound
  | materialIndexResolve
  | materialIndexOutOfRange (numMaterials got : Nat)
  | tangents
  | noGeometry
  | noMaterialLoader
  | wrapModeU
  | wrapModeV
  | noVideoClip
  | imageDecode
deriving DecidableEq, Repr

/-- A reconstructed renderer mesh: the three vertex attribute buffers and
the index buffer (`Mesh` attributes inserted by `load_bevy_mesh`). -/
structure BevyMesh where
  positions : List Vec3
  uv : List Vec2
  normals : List Vec3
  indices : List Nat
deriving DecidableEq, Repr

/-- The state threaded through `Loader`'s methods: the `FbxScene` caches
(`materials`, `textures`, `bevy_meshes`, `meshes`), the content of assets
registered through `LoadContext::add_labeled_asset` (`assets` is the
registration log, the `*Assets` lists the typed contents), and two
instrumentation logs recording external effects: `decodeLog` (video clips
decoded by `load_video_clip`) and `loaderRuns` (invocations of
`run_loader`). -/
structure LoaderState where
  materials : List (String × Handle)
  textures : List (String × Handle)
  bevy_meshes : List (Handle × String)
  meshes : List (Nat × Handle)
  assets : List String
  meshAssets : List (String × BevyMesh)
  textureAssets : List (String × Image)
  materialAssets : List (String × Nat)
  decodeLog : List Nat
  loaderRuns : Nat
deriving DecidableEq, Repr

/-- The empty loader state (`FbxScene::default()`). -/
def LoaderState.empty : LoaderState :=
  { materials := [], textures := [], bevy_meshes := [], meshes := [],
    assets := [], meshAssets := [], textureAssets := [], materialAssets := [],
    decodeLog := [], loaderRuns := 0 }

/-- `HashMap::insert`: the new binding wins, the old one is dropped. -/
def insertA {α : Type} (m : List (String × α)) (k : String) (v : α) :
    List (String × α) :=
  (k, v) :: m.filter (fun p => p.1 != k)

/-- `LoadContext::add_labeled_asset`: registers an asset under a label and
returns a (strong) handle to it. -/
def add_labeled_asset (st : LoaderState) (label : String) :
    Handle × LoaderState :=
  ({ id := label, strong := true }, { st with assets := st.assets ++ [label] })

/-! ## Mesh geometry reconstruction (`Loader::load_bevy_mesh`) -/

/-- A raw FBX geometry mesh as consumed by `load_bevy_mesh`, at the
interface of the document parser: the fallible accessor results are data
fields.  `controlPointIndices` is the sequence produced by
`iter_control_point_indices` over the triangulated polygon vertices;
`triangleVertexIndices` the one produced by `triangle_vertex_indices`
(each entry is `tri_vi.to_usize()`); `normalOf`/`uvOf`/`materialIndexOf`
are the per-triangle-vertex layer-element resolutions, `none` at the outer
level meaning the layer element itself is missing.  `tangentsOk` is the
outcome of the external `generate_tangents` call. -/
structure MeshGeometry where
  name : Option String
  gid : Nat
  polygonVerticesOk : Bool
  triangulationOk : Bool
  controlPointIndices : List (Option Nat)
  controlPoints : List Vec3
  hasLayer : Bool
  normalOf : Option (Nat → Option Vec3)
  uvOf : Option (Nat → Option Vec2)
  materialElement : Option (Nat → Option Nat)
  triangleVertexIndices : List Nat
  tangentsOk : Bool

/-- The label under which primitives of a geometry mesh are registered
(src/loader.rs lines 242-245). -/
def bevyMeshLabel (g : MeshGeometry) : String :=
  match g.name with
  | some n =>
    if n = "" then "FbxMesh" ++ toString g.gid ++ "/Primitive"
    else "FbxMesh@" ++ n ++ "/Primitive"
  | none => "FbxMesh" ++ toString g.gid ++ "/Primitive"

/-- The UV vertical flip (src/loader.rs line 353):
`bevy_uv_space = fbx_uv_space * Vec2::new(1.0, -1.0) + Vec2::new(0.0, 1.0)`. -/
def uvFlip (p : Vec2) : Vec2 :=
  (p.1 * 1 + 0, p.2 * (-1) + 1)

/-- `get_position` mapped over `iter_control_point_indices` and collected
into a `Result` (src/loader.rs lines 269-280): each entry needs a present
control point index and a control point at that index. -/
def resolvePositionsGo (cps : List Vec3) :
    List (Option Nat) → Except LoadError (List Vec3)
  | [] => .ok []
  | none :: _ => .error .controlPointIndex
  | some cpi :: rest =>
    match cps[cpi]? with
    | none => .error .controlPoint
    | some p =>
      match resolvePositionsGo cps rest with
      | .error e => .error e
      | .ok ps => .ok (p :: ps)

def resolvePositions (g : MeshGeometry) : Except LoadError (List Vec3) :=
  resolvePositionsGo g.controlPoints g.controlPointIndices

/-- A per-triangle-vertex attribute resolution mapped over
`triangle_vertex_indices` and collected into a `Result`. -/
def resolveVecGo {α : Type} (f : Nat → Option α) (e : LoadError) :
    List Nat → Except LoadError (List α)
  | [] => .ok []
  | t :: ts =>
    match f t with
    | none => .error e
    | some v =>
      match resolveVecGo f e ts with
      | .error e' => .error e'
      | .ok vs => .ok (v :: vs)

/-- The normals block of `load_bevy_mesh` (src/loader.rs lines 321-340). -/
def resolveNormals (g : MeshGeometry) : Except LoadError (List Vec3) :=
  match g.normalOf with
  | none => .error .noNormals
  | some nf => resolveVecGo nf .normalResolve g.triangleVertexIndices

/-- The UV block of `load_bevy_mesh` (src/loader.rs lines 341-361): each
raw UV is resolved and then flipped into bevy UV space. -/
def resolveUVs (g : MeshGeometry) : Except LoadError (List Vec2) :=
  match g.uvOf with
  | none => .error .noUv
  | some uf =>
    resolveVecGo (fun t => (uf t).map uvFlip) .uvResolve
      g.triangleVertexIndices

/-- The loop of the `indices_per_material` closure (src/loader.rs lines
303-318): for each triangle vertex index resolve its material slot and
push the index onto that slot's list; a slot with no list (out of range)
is a hard error carrying `num_materials` and the offending index. -/
def partitionGo (mf : Nat → Option Nat) (num_materials : Nat) :
    List Nat → List (List Nat) → Except LoadError (List (List Nat))
  | [], acc => .ok acc
  | t :: ts, acc =>
    match mf t with
    | none => .error .materialIndexResolve
    | some s =>
      match acc[s]? with
      | none => .error (.materialIndexOutOfRange num_materials s)
      | some l => partitionGo mf num_materials ts (acc.set s (l ++ [t]))

/-- The `indices_per_material` closure (src/loader.rs lines 289-320):
`none` when the mesh has no materials, otherwise the per-material
partition of the triangle-vertex indices. -/
def indicesPerMaterial (g : MeshGeometry) (num_materials : Nat) :
    Except LoadError (Option (List (List Nat))) :=
  if num_materials = 0 then .ok none
  else
    match g.materialElement with
    | none => .error .materialsNotFound
    | some mf =>
      match partitionGo mf num_materials g.triangleVertexIndices
          (List.replicate num_materials []) with
      | .error e => .error e
      | .ok lists => .ok (some lists)

/-- The per-primitive loop of `load_bevy_mesh` (src/loader.rs lines
404-421): for each (enumerated) per-material index list, register a clone
of the shared mesh with that index buffer under label `{label}{i}` and
record the handle. -/
def registerPrimitivesGo (label : String) (ps : List Vec3) (us : List Vec2)
    (ns : List Vec3) :
    LoaderState → Nat → List (List Nat) → LoaderState × List Handle
  | st, _, [] => (st, [])
  | st, i, idx :: rest =>
    let plabel := label ++ toString i
    let bm : BevyMesh := ⟨ps, us, ns, idx⟩
    let p := add_labeled_asset st plabel
    let st' := { p.2 with
                 bevy_meshes := (p.1, plabel) :: p.2.bevy_meshes,
                 meshAssets := insertA p.2.meshAssets plabel bm }
    let r := registerPrimitivesGo label ps us ns st' (i + 1) rest
    (r.1, p.1 :: r.2)

/-- Embedding of `Loader::load_bevy_mesh` (src/loader.rs lines 237-423),
with the failure points in source order: polygon vertices, triangulation,
positions, first layer, normals, UVs, the attribute-length guard, the
per-material partition, tangent generation, then per-primitive asset
registration. -/
def load_bevy_mesh (st : LoaderState) (g : MeshGeometry)
    (num_materials : Nat) : Except LoadError (LoaderState × List Handle) :=
  let label := bevyMeshLabel g
  if ¬ g.polygonVerticesOk then .error .polygonVertices
  else if ¬ g.triangulationOk then .error .triangulation
  else
    match resolvePositions g with
    | .error e => .error e
    | .ok positions =>
      if ¬ g.hasLayer then .error .noLayer
      else
        match resolveNormals g with
        | .error e => .error e
        | .ok normals =>
          match resolveUVs g with
          | .error e => .error e
          | .ok uv =>
            if uv.length ≠ positions.length ∨ uv.length ≠ normals.length then
              .error (.lengthMismatch positions.length uv.length
                normals.length)
            else
              let full_mesh_indices := g.triangleVertexIndices
              match indicesPerMaterial g num_materials with
              | .error e => .error e
              | .ok per =>
                let all_indices := per.getD [full_mesh_indices]
                if ¬ g.tangentsOk then .error .tangents
                else
                  .ok (registerPrimitivesGo label positions uv normals
                    st 0 all_indices)

/-- Recognises the out-of-range material-slot error. -/
def isOutOfRangeError {α : Type} : Except LoadError α → Bool
  | .error (.materialIndexOutOfRange _ _) => true
  | _ => false

instance {ε α : Type} [DecidableEq ε] [DecidableEq α] :
    DecidableEq (Except ε α) := fun a b =>
  match a, b with
  | .error e, .error f =>
    if h : e = f then .isTrue (congrArg Except.error h)
    else .isFalse (fun hc => h (Except.error.inj hc))
  | .error _, .ok _ => .isFalse (fun hc => Except.noConfusion hc)
  | .ok _, .error _ => .isFalse (fun hc => Except.noConfusion hc)
  | .ok x, .ok y =>
    if h : x = y then .isTrue (congrArg Except.ok h)
    else .isFalse (fun hc => h (Except.ok.inj hc))

/-- Option-collecting map (used to name the raw, unflipped attribute
sequence): `none` as soon as one element fails to resolve. -/
def collectSome {α β : Type} (f : α → Option β) : List α → Option (List β)
  | [] => some []
  | a :: as => (f a).bind fun b => (collectSome f as).map fun bs => b :: bs

/-! ## Lemmas about mesh reconstruction -/

theorem registerPrimitivesGo_snd_length (label : String) (ps : List Vec3)
    (us : List Vec2) (ns : List Vec3) (lists : List (List Nat))
    (st : LoaderState) (i : Nat) :
    (registerPrimitivesGo label ps us ns st i lists).2.length =
      lists.length := by
  induction lists generalizing st i with
  | nil => rfl
  | cons idx rest ih =>
    rw [registerPrimitivesGo]
    simp [ih]

theorem mem_meshAssets_registerPrimitivesGo (label : String) (ps : List Vec3)
    (us : List Vec2) (ns : List Vec3) (lists : List (List Nat))
    (st : LoaderState) (i : Nat) (p : String × BevyMesh)
    (hp : p ∈ (registerPrimitivesGo label ps us ns st i lists).1.meshAssets) :
    p ∈ st.meshAssets ∨ ∃ idx ∈ lists, p.2 = ⟨ps, us, ns, idx⟩ := by
  induction lists generalizing st i with
  | nil => exact Or.inl hp
  | cons idx rest ih =>
    rw [registerPrimitivesGo] at hp
    rcases ih _ _ hp with hin | ⟨idx', hidx', hval⟩
    · simp only [add_labeled_asset, insertA] at hin
      rcases List.mem_cons.mp hin with heq | hfil
      · subst heq
        exact Or.inr ⟨idx, List.mem_cons_self _ _, rfl⟩
      · exact Or.inl (List.mem_of_mem_filter hfil)
    · exact Or.inr ⟨idx', List.mem_cons_of_mem _ hidx', hval⟩

theorem partitionGo_length (mf : Nat → Option Nat) (M : Nat) (ts : List Nat)
    (acc lists : List (List Nat))
    (h : partitionGo mf M ts acc = .ok lists) :
    lists.length = acc.length := by
  induction ts generalizing acc with
  | nil =>
    rw [partitionGo] at h
    cases h
    rfl
  | cons t rest ih =>
    rw [partitionGo] at h
    split at h
    · cases h
    · split at h
      · cases h
      · have := ih _ h
        rwa [List.length_set] at this

theorem sum_map_length_set (acc : List (List Nat)) (s : Nat) (l : List Nat)
    (t : Nat) (h : acc[s]? = some l) :
    ((acc.set s (l ++ [t])).map List.length).sum =
      (acc.map List.length).sum + 1 := by
  induction acc generalizing s with
  | nil => simp at h
  | cons a rest ih =>
    cases s with
    | zero =>
      simp only [List.getElem?_cons_zero] at h
      have hal := Option.some.inj h
      subst hal
      simp only [List.set_cons_zero, List.map_cons, List.sum_cons,
        List.length_append, List.length_cons, List.length_nil]
      omega
    | succ s =>
      simp only [List.getElem?_cons_succ] at h
      have ih' := ih s h
      simp only [List.set_cons_succ, List.map_cons, List.sum_cons, ih']
      omega

theorem partitionGo_sum (mf : Nat → Option Nat) (M : Nat) (ts : List Nat)
    (acc lists : List (List Nat))
    (h : partitionGo mf M ts acc = .ok lists) :
    (lists.map List.length).sum = (acc.map List.length).sum + ts.length := by
  induction ts generalizing acc with
  | nil =>
    rw [partitionGo] at h
    cases h
    simp
  | cons t rest ih =>
    rw [partitionGo] at h
    split at h
    · cases h
    · rename_i s hmf
      split at h
      · cases h
      · rename_i l hget
        have := ih _ h
        rw [sum_map_length_set acc s l t hget] at this
        rw [this, List.length_cons]
        omega

theorem partitionGo_getElem (mf : Nat → Option Nat) (M : Nat) (ts : List Nat)
    (acc lists : List (List Nat))
    (h : partitionGo mf M ts acc = .ok lists) (j : Nat) (aj : List Nat)
    (hj : acc[j]? = some aj) :
    lists[j]? = some (aj ++ ts.filter (fun t => mf t == some j)) := by
  induction ts generalizing acc aj with
  | nil =>
    rw [partitionGo] at h
    cases h
    simpa using hj
  | cons t rest ih =>
    rw [partitionGo] at h
    split at h
    · cases h
    · rename_i s hmf
      split at h
      · cases h
      · rename_i l hget
        have hslt : s < acc.length := (List.getElem?_eq_some.mp hget).1
        by_cases hsj : s = j
        · subst hsj
          have hlaj : l = aj := by
            rw [hget] at hj
            exact Option.some.inj hj
          subst hlaj
          have hstep := ih _ h (l ++ [t]) (by rw [List.getElem?_set]; simp [hslt])
          rw [hstep]
          have hfil : (t :: rest).filter (fun x => mf x == some s) =
              t :: rest.filter (fun x => mf x == some s) := by
            rw [List.filter_cons]
            simp [hmf]
          rw [hfil]
          simp
        · have hstep := ih _ h aj (by rw [List.getElem?_set]; simp [hsj, hj])
          rw [hstep]
          have hfil : (t :: rest).filter (fun x => mf x == some j) =
              rest.filter (fun x => mf x == some j) := by
            rw [List.filter_cons]
            simp [hmf, hsj]
          rw [hfil]

theorem partitionGo_slots_lt (mf : Nat → Option Nat) (M : Nat)
    (ts : List Nat) (acc lists : List (List Nat))
    (h : partitionGo mf M ts acc = .ok lists) :
    ∀ t ∈ ts, ∀ s, mf t = some s → s < acc.length := by
  induction ts generalizing acc with
  | nil => intro t ht; cases ht
  | cons t rest ih =>
    rw [partitionGo] at h
    split at h
    · cases h
    · rename_i s hmf
      split at h
      · cases h
      · rename_i l hget
        intro t' ht' s' hs'
        rcases List.mem_cons.mp ht' with heq | hmem
        · subst heq
          rw [hmf] at hs'
          cases hs'
          exact (List.getElem?_eq_some.mp hget).1
        · have := ih _ h t' hmem s' hs'
          rwa [List.length_set] at this

theorem partitionGo_out_of_range (mf : Nat → Option Nat) (M : Nat)
    (ts : List Nat) (acc : List (List Nat)) (hlen : acc.length = M)
    (hres : ∀ t ∈ ts, ∃ s, mf t = some s)
    (hbad : ∃ t ∈ ts, ∃ s, mf t = some s ∧ M ≤ s) :
    isOutOfRangeError (partitionGo mf M ts acc) = true := by
  induction ts generalizing acc with
  | nil =>
    obtain ⟨t, ht, _⟩ := hbad
    cases ht
  | cons t rest ih =>
    obtain ⟨s, hs⟩ := hres t (List.mem_cons_self _ _)
    rw [partitionGo]
    split
    · rename_i hnone
      rw [hs] at hnone
      cases hnone
    · rename_i s' hs'
      rw [hs] at hs'
      have hss : s' = s := (Option.some.inj hs').symm
      subst hss
      split
      · rfl
      · rename_i l hget
        have hslt : s' < acc.length := (List.getElem?_eq_some.mp hget).1
        apply ih
        · rw [List.length_set, hlen]
        · exact fun t' ht' => hres t' (List.mem_cons_of_mem _ ht')
        · obtain ⟨t₀, ht₀, s₀, hs₀, hMs₀⟩ := hbad
          rcases List.mem_cons.mp ht₀ with heq | hmem
          · subst heq
            rw [hs] at hs₀
            cases hs₀
            omega
          · exact ⟨t₀, hmem, s₀, hs₀, hMs₀⟩

theorem indicesPerMaterial_eq (g : MeshGeometry) (M : Nat)
    (mf : Nat → Option Nat) (hM : M ≠ 0)
    (hmf : g.materialElement = some mf) :
    indicesPerMaterial g M =
      match partitionGo mf M g.triangleVertexIndices
          (List.replicate M []) with
      | .error e => .error e
      | .ok lists => .ok (some lists) := by
  rw [indicesPerMaterial, if_neg hM, hmf]

theorem load_bevy_mesh_reduce (st : LoaderState) (g : MeshGeometry) (M : Nat)
    (ps : List Vec3) (ns : List Vec3) (us : List Vec2)
    (hpv : g.polygonVerticesOk = true) (htr : g.triangulationOk = true)
    (hlay : g.hasLayer = true)
    (hps : resolvePositions g = .ok ps)
    (hns : resolveNormals g = .ok ns)
    (hus : resolveUVs g = .ok us)
    (hlen1 : us.length = ps.length) (hlen2 : us.length = ns.length) :
    load_bevy_mesh st g M =
      match indicesPerMaterial g M with
      | .error e => .error e
      | .ok per =>
        if ¬ g.tangentsOk then .error .tangents
        else
          .ok (registerPrimitivesGo (bevyMeshLabel g) ps us ns st 0
            (per.getD [g.triangleVertexIndices])) := by
  rw [load_bevy_mesh]
  simp only [hpv, htr, hlay, hps, hns, hus, hlen1, hlen2, not_true,
    if_false, ne_eq, not_false_eq_true, or_self, if_true]
  simp
  intro hc
  exfalso
  apply hc
  omega

/-- **C3**: If the resolved position, UV, and normal arrays do not all
have the same length, `load_bevy_mesh` fails with the length-mismatch
error before any vertex/index buffer is built; on success the arrays have
equal length and every primitive registered by this call carries the full
resolved arrays (no truncation). -/
theorem attribute_length_mismatch_fails (st : LoaderState)
    (g : MeshGeometry) (M : Nat) (ps : List Vec3) (ns : List Vec3)
    (us : List Vec2)
    (hpv : g.polygonVerticesOk = true) (htr : g.triangulationOk = true)
    (hlay : g.hasLayer = true)
    (hps : resolvePositions g = .ok ps)
    (hns : resolveNormals g = .ok ns)
    (hus : resolveUVs g = .ok us) :
    (¬ (us.length = ps.length ∧ us.length = ns.length) →
        load_bevy_mesh st g M =
          .error (.lengthMismatch ps.length us.length ns.length))
    ∧ (∀ st' hs, load_bevy_mesh st g M = .ok (st', hs) →
        us.length = ps.length ∧ us.length = ns.length
        ∧ ∀ p ∈ st'.meshAssets,
            p ∈ st.meshAssets ∨ ∃ idx, p.2 = BevyMesh.mk ps us ns idx) := by
  constructor
  · intro hmis
    rw [load_bevy_mesh]
    simp only [hpv, htr, hlay, hps, hns, hus, not_true, if_false]
    have hcond : (us.length ≠ ps.length ∨ us.length ≠ ns.length) := by
      by_cases h1 : us.length = ps.length
      · by_cases h2 : us.length = ns.length
        · exact absurd ⟨h1, h2⟩ hmis
        · exact Or.inr h2
      · exact Or.inl h1
    simp [hcond]
  · intro st' hs hok
    by_cases h1 : us.length = ps.length
    · by_cases h2 : us.length = ns.length
      · refine ⟨h1, h2, ?_⟩
        rw [load_bevy_mesh_reduce st g M ps ns us hpv htr hlay hps hns hus
          h1 h2] at hok
        split at hok
        · cases hok
        · split at hok
          · cases hok
          · intro p hp
            have hin := congrArg Prod.fst (Except.ok.inj hok)
            simp only at hin
            rw [← hin] at hp
            rcases mem_meshAssets_registerPrimitivesGo _ _ _ _ _ _ _ _ hp
              with hmem | ⟨idx, _, hval⟩
            · exact Or.inl hmem
            · exact Or.inr ⟨idx, hval⟩
      · exfalso
        rw [load_bevy_mesh] at hok
        simp only [hpv, htr, hlay, hps, hns, hus, not_true, if_false] at hok
        have hcond : (us.length ≠ ps.length ∨ us.length ≠ ns.length) :=
          Or.inr h2
        simp [hcond] at hok
    · exfalso
      rw [load_bevy_mesh] at hok
      simp only [hpv, htr, hlay, hps, hns, hus, not_true, if_false] at hok
      have hcond : (us.length ≠ ps.length ∨ us.length ≠ ns.length) :=
        Or.inl h1
      simp [hcond] at hok

theorem uvFlip_eval (p : Vec2) : uvFlip p = (p.1, 1 - p.2) := by
  simp only [uvFlip, Prod.ext_iff]
  constructor <;> ring

/-- The mismatching synthetic geometry used by the C3 witness: two
control-point indices (so two positions) against three triangle
vertices (three UVs and three normals). -/
def exG3 : MeshGeometry :=
  { name := none, gid := 7, polygonVerticesOk := true,
    triangulationOk := true,
    controlPointIndices := [some 0, some 0],
    controlPoints := [((0 : ℚ), (0 : ℚ), (0 : ℚ))],
    hasLayer := true,
    normalOf := some (fun _ => some ((0 : ℚ), (0 : ℚ), (1 : ℚ))),
    uvOf := some (fun _ => some ((0 : ℚ), (0 : ℚ))),
    materialElement := none,
    triangleVertexIndices := [0, 1, 2],
    tangentsOk := true }

theorem resolveUVs_exG3 : resolveUVs exG3 = .ok [(0, 1), (0, 1), (0, 1)] := by
  simp only [resolveUVs, exG3]
  simp only [resolveVecGo, Option.map_some', uvFlip_eval]
  norm_num

/-- Witness for C3: the mismatched arrays of `exG3` make the load fail
with the length-mismatch error. -/
theorem attribute_length_mismatch_fails_witness :
    load_bevy_mesh LoaderState.empty exG3 0 =
      .error (.lengthMismatch 2 3 3) :=
  (attribute_length_mismatch_fails LoaderState.empty exG3 0
    [(0, 0, 0), (0, 0, 0)]
    [(0, 0, 1), (0, 0, 1), (0, 0, 1)]
    [(0, 1), (0, 1), (0, 1)]
    (by decide) (by decide) (by decide) (by decide) (by decide)
    resolveUVs_exG3).1 (by decide)

/-- **C4**: With `M > 0` materials, a per-triangle material slot index
outside `[0, M)` makes the mesh load fail with the out-of-range error;
on success every resolved slot index is `< M` (no wrapping or
clamping). -/
theorem material_slot_out_of_range_fails (st : LoaderState)
    (g : MeshGeometry) (M : Nat) (mf : Nat → Option Nat)
    (ps : List Vec3) (ns : List Vec3) (us : List Vec2)
    (hM : M ≠ 0) (hmf : g.materialElement = some mf)
    (hpv : g.polygonVerticesOk = true) (htr : g.triangulationOk = true)
    (hlay : g.hasLayer = true)
    (hps : resolvePositions g = .ok ps)
    (hns : resolveNormals g = .ok ns)
    (hus : resolveUVs g = .ok us)
    (hlen1 : us.length = ps.length) (hlen2 : us.length = ns.length)
    (hres : ∀ t ∈ g.triangleVertexIndices, ∃ s, mf t = some s) :
    ((∃ t ∈ g.triangleVertexIndices, ∃ s, mf t = some s ∧ M ≤ s) →
        isOutOfRangeError (load_bevy_mesh st g M) = true)
    ∧ (∀ st' hs, load_bevy_mesh st g M = .ok (st', hs) →
        ∀ t ∈ g.triangleVertexIndices, ∀ s, mf t = some s → s < M) := by
  have hred := load_bevy_mesh_reduce st g M ps ns us hpv htr hlay hps hns
    hus hlen1 hlen2
  rw [indicesPerMaterial_eq g M mf hM hmf] at hred
  constructor
  · intro hbad
    have hout := partitionGo_out_of_range mf M g.triangleVertexIndices
      (List.replicate M []) (by simp) hres hbad
    rw [hred]
    cases hpart : partitionGo mf M g.triangleVertexIndices
        (List.replicate M []) with
    | error e =>
      rw [hpart] at hout
      cases e <;> simp_all [isOutOfRangeError]
    | ok lists =>
      rw [hpart] at hout
      simp [isOutOfRangeError] at hout
  · intro st' hs hok t ht s hsm
    rw [hred] at hok
    cases hpart : partitionGo mf M g.triangleVertexIndices
        (List.replicate M []) with
    | error e =>
      rw [hpart] at hok
      simp at hok
    | ok lists =>
      have := partitionGo_slots_lt mf M g.triangleVertexIndices
        (List.replicate M []) lists hpart t ht s hsm
      simpa using this

/-- The geometry used by the C4 witness: one material, but every triangle
vertex claims material slot 5. -/
def exG4 : MeshGeometry :=
  { name := some "bad", gid := 9, polygonVerticesOk := true,
    triangulationOk := true,
    controlPointIndices := [some 0, some 0, some 0],
    controlPoints := [((0 : ℚ), (0 : ℚ), (0 : ℚ))],
    hasLayer := true,
    normalOf := some (fun _ => some ((0 : ℚ), (0 : ℚ), (1 : ℚ))),
    uvOf := some (fun _ => some ((0 : ℚ), (0 : ℚ))),
    materialElement := some (fun _ => some 5),
    triangleVertexIndices := [0, 1, 2],
    tangentsOk := true }

theorem resolveUVs_exG4 : resolveUVs exG4 = .ok [(0, 1), (0, 1), (0, 1)] := by
  simp only [resolveUVs, exG4]
  simp only [resolveVecGo, Option.map_some', uvFlip_eval]
  norm_num

/-- Witness for C4: slot 5 with only 1 material makes the load fail with
the out-of-range error. -/
theorem material_slot_out_of_range_fails_witness :
    isOutOfRangeError (load_bevy_mesh LoaderState.empty exG4 1) = true :=
  (material_slot_out_of_range_fails LoaderState.empty exG4 1
    (fun _ => some 5)
    [(0, 0, 0), (0, 0, 0), (0, 0, 0)]
    [(0, 0, 1), (0, 0, 1), (0, 0, 1)]
    [(0, 1), (0, 1), (0, 1)]
    (by decide) rfl (by decide) (by decide) (by decide)
    (by decide) (by decide) resolveUVs_exG4 (by decide) (by decide)
    (fun t _ => ⟨5, rfl⟩)).1 ⟨0, by decide, 5, rfl, by decide⟩

/-- **C10**: With `M > 0` and a successful partition, the `M`
per-material index lists form a partition of the triangle-vertex index
sequence: there are exactly `M` lists, their lengths sum to the length of
the full index buffer, and list `j` is exactly the subsequence of indices
whose triangle resolves to material slot `j`. -/
theorem partition_forms_partition (g : MeshGeometry) (M : Nat)
    (mf : Nat → Option Nat) (lists : List (List Nat))
    (hM : M ≠ 0) (hmf : g.materialElement = some mf)
    (h : indicesPerMaterial g M = .ok (some lists)) :
    lists.length = M
    ∧ (lists.map List.length).sum = g.triangleVertexIndices.length
    ∧ ∀ j, j < M →
        lists[j]? = some (g.triangleVertexIndices.filter
          (fun t => mf t == some j)) := by
  rw [indicesPerMaterial_eq g M mf hM hmf] at h
  cases hpart : partitionGo mf M g.triangleVertexIndices
      (List.replicate M []) with
  | error e =>
    rw [hpart] at h
    simp at h
  | ok lists' =>
    rw [hpart] at h
    simp only [Except.ok.injEq, Option.some.injEq] at h
    subst h
    refine ⟨?_, ?_, ?_⟩
    · have := partitionGo_length mf M _ _ _ hpart
      simpa using this
    · have := partitionGo_sum mf M _ _ _ hpart
      simpa using this
    · intro j hj
      have hrep : (List.replicate M ([] : List Nat))[j]? = some [] := by
        rw [List.getElem?_replicate]
        simp [hj]
      have := partitionGo_getElem mf M _ _ _ hpart j [] hrep
      simpa using this

/-- The geometry used by the C10 witness: two materials, slots alternate
by parity. -/
def exG10 : MeshGeometry :=
  { name := none, gid := 11, polygonVerticesOk := true,
    triangulationOk := true,
    controlPointIndices := [some 0, some 0, some 0],
    controlPoints := [((0 : ℚ), (0 : ℚ), (0 : ℚ))],
    hasLayer := true,
    normalOf := some (fun _ => some ((0 : ℚ), (0 : ℚ), (1 : ℚ))),
    uvOf := some (fun _ => some ((0 : ℚ), (0 : ℚ))),
    materialElement := some (fun t => some (t % 2)),
    triangleVertexIndices := [0, 1, 2],
    tangentsOk := true }

/-- Witness for C10: the two per-material lists of `exG10` are `[0, 2]`
and `[1]`, which partition `[0, 1, 2]`. -/
theorem partition_forms_partition_witness :
    ([[0, 2], [1]] : List (List Nat)).length = 2
    ∧ (([[0, 2], [1]] : List (List Nat)).map List.length).sum =
        exG10.triangleVertexIndices.length
    ∧ ([[0, 2], [1]] : List (List Nat))[0]? =
        some (exG10.triangleVertexIndices.filter
          (fun t => (fun x => some (x % 2)) t == some 0))
    ∧ ([[0, 2], [1]] : List (List Nat))[1]? =
        some (exG10.triangleVertexIndices.filter
          (fun t => (fun x => some (x % 2)) t == some 1)) := by
  have h := partition_forms_partition exG10 2 (fun t => some (t % 2))
    [[0, 2], [1]] (by decide) rfl (by decide)
  exact ⟨h.1, h.2.1, h.2.2 0 (by decide), h.2.2 1 (by decide)⟩

theorem resolveVecGo_map_eq (uf : Nat → Option Vec2) (ts : List Nat)
    (us : List Vec2)
    (h : resolveVecGo (fun t => (uf t).map uvFlip) .uvResolve ts = .ok us) :
    ∃ raws, collectSome uf ts = some raws ∧ us = raws.map uvFlip := by
  induction ts generalizing us with
  | nil =>
    rw [resolveVecGo] at h
    cases h
    exact ⟨[], rfl, rfl⟩
  | cons t rest ih =>
    rw [resolveVecGo] at h
    split at h
    · cases h
    · rename_i v hv
      split at h
      · cases h
      · rename_i vs hvs
        cases h
        obtain ⟨raws, hraws, hmap⟩ := ih _ hvs
        obtain ⟨r, hr, hrv⟩ := Option.map_eq_some'.mp hv
        refine ⟨r :: raws, ?_, ?_⟩
        · simp [collectSome, hr, hraws]
        · rw [List.map_cons, hrv, ← hmap]

/-- **C9**: Every reconstructed UV coordinate is the source UV transformed
by `(u, v) ↦ (u, 1 - v)`, and the flip is an involution: applying it twice
returns the original pair.  (`f32` arithmetic is embedded as exact rational
arithmetic.) -/
theorem uv_flip_involution (g : MeshGeometry) (uf : Nat → Option Vec2)
    (us : List Vec2) (hg : g.uvOf = some uf)
    (h : resolveUVs g = .ok us) :
    (∃ raws, collectSome uf g.triangleVertexIndices = some raws
        ∧ us = raws.map uvFlip)
    ∧ (∀ p : Vec2, uvFlip p = (p.1, 1 - p.2) ∧ uvFlip (uvFlip p) = p) := by
  constructor
  · rw [resolveUVs] at h
    split at h
    · cases h
    · rename_i uf' hg'
      rw [hg] at hg'
      have huf : uf = uf' := Option.some.inj hg'
      subst huf
      exact resolveVecGo_map_eq uf _ us h
  · intro p
    refine ⟨uvFlip_eval p, ?_⟩
    rw [uvFlip_eval, uvFlip_eval]
    simp only [Prod.ext_iff]
    constructor
    · trivial
    · ring

theorem resolveUVs_exG10 :
    resolveUVs exG10 = .ok [(0, 1), (0, 1), (0, 1)] := by
  simp only [resolveUVs, exG10]
  simp only [resolveVecGo, Option.map_some', uvFlip_eval]
  norm_num

/-- Witness for C9: the flip formula and its involution at the concrete
UV pair `(1/3, 5/7)`, obtained from the theorem applied to `exG10`. -/
theorem uv_flip_involution_witness :
    uvFlip ((1 : ℚ)/3, (5 : ℚ)/7) = ((1 : ℚ)/3, 1 - (5 : ℚ)/7)
    ∧ uvFlip (uvFlip ((1 : ℚ)/3, (5 : ℚ)/7)) = ((1 : ℚ)/3, (5 : ℚ)/7) := by
  have h := uv_flip_involution exG10 (fun _ => some ((0 : ℚ), (0 : ℚ)))
    [(0, 1), (0, 1), (0, 1)] rfl resolveUVs_exG10
  exact h.2 (1/3, 5/7)

/-! ## Materials and textures
(`Loader::load_video_clip`, `get_texture`, `run_loader`, `load_material`,
`load_mesh`) -/

/-- `StandardMaterial` is opaque to the loader logic; only its identity
matters. -/
abbrev StandardMaterial := Nat

/-- A raw material object handle: name/id and the texture-by-slot-label
accessor (`material_obj.load_texture(label)` from the crate's
`fbx_extend` utilities). -/
structure MaterialObj where
  name : Option String
  mid : Nat
  load_texture : String → Option TextureObj

/-- Modelled from the spec: the `MaterialLoader` descriptor is defined at
the crate root (`lib.rs`), which is not under `src/`; per spec section 3
it is `{ static_texture_slots, dynamic_texture_slots, preprocess, build }`
(field names as used by `src/loader.rs`: `static_load`, `dynamic_load`,
`preprocess_textures`, `with_textures`). -/
structure MaterialLoader where
  static_load : List String
  dynamic_load : List String
  preprocess_textures :
    MaterialObj → List (String × Image) → List (String × Image)
  with_textures :
    MaterialObj → List (String × Handle) → Option StandardMaterial

/-- Embedding of `Loader::load_video_clip` (src/loader.rs lines 473-519):
resolve and decode the backing bytes (collapsed into the clip's `decoded`
field, see `VideoClip`), recording the decode in the instrumentation log.
The image starts with the default sampler descriptor. -/
def load_video_clip (st : LoaderState) (clip : VideoClip) :
    Except LoadError (LoaderState × Image) :=
  match clip.decoded with
  | none => .error .imageDecode
  | some content =>
    .ok ({ st with decodeLog := st.decodeLog ++ [clip.vid] },
      { content := content, samplerU := .ClampToEdge,
        samplerV := .ClampToEdge })

/-- Embedding of `Loader::get_texture` (src/loader.rs lines 593-629):
resolve both wrap modes, load the video clip, and attach the translated
address modes to the image's sampler. -/
def get_texture (st : LoaderState) (t : TextureObj) :
    Except LoadError (LoaderState × Image) :=
  match t.wrapModeU with
  | none => .error .wrapModeU
  | some wu =>
    match t.wrapModeV with
    | none => .error .wrapModeV
    | some wv =>
      match t.videoClip with
      | none => .error .noVideoClip
      | some clip =>
        match load_video_clip st clip with
        | .error e => .error e
        | .ok (st', img) =>
          .ok (st', { img with
                      samplerU := wrapToAddress wu,
                      samplerV := wrapToAddress wv })

/-- Step 1 of `run_loader` (src/loader.rs lines 540-545): every
`dynamic_load` slot with a backing texture is loaded (decoded) into the
local `textures` map; slots without a backing texture are skipped. -/
def loadDynamicTextures (mat : MaterialObj) :
    LoaderState → List String → List (String × Image) →
      Except LoadError (LoaderState × List (String × Image))
  | st, [], acc => .ok (st, acc)
  | st, lab :: rest, acc =>
    match mat.load_texture lab with
    | none => loadDynamicTextures mat st rest acc
    | some t =>
      match get_texture st t with
      | .error e => .error e
      | .ok (st', img) =>
        loadDynamicTextures mat st' rest (insertA acc lab img)

/-- The texture source of step 2 of `run_loader`: either an image already
processed by the loader's preprocess step, or a raw texture handle still
to be loaded. -/
inductive TextureSource where
  | processed (img : Image)
  | handle (t : TextureObj)

/-- The cache label of a texture (src/loader.rs lines 559-568): a texture
backed by a texture object is labelled from its own name/id; a
preprocessed image is labelled from the material's name/id and the slot
label. -/
def textureHandleLabel (mat : MaterialObj) (slot : String) :
    TextureSource → String
  | .handle t =>
    (match t.name with
     | some n => if n = "" then "FbxTexture" ++ toString t.tid
       else "FbxTexture@" ++ n
     | none => "FbxTexture" ++ toString t.tid)
  | .processed _ =>
    (match mat.name with
     | some n =>
       if n = "" then "FbxTextureMat" ++ toString mat.mid ++ "/" ++ slot
       else "FbxTextureMat@" ++ n ++ "/" ++ slot
     | none => "FbxTextureMat" ++ toString mat.mid ++ "/" ++ slot)

/-- Step 3 of `run_loader` (src/loader.rs lines 558-588): for each
`(slot, source)` pair compute its cache label; on a hit reuse the cached
handle, otherwise obtain the image (directly for processed sources,
through `get_texture` for raw handles), register it as a labeled asset,
and cache the handle; either way record the handle under the slot
label. -/
def resolveTextureHandles (mat : MaterialObj) :
    LoaderState → List (String × Handle) → List (String × TextureSource) →
      Except LoadError (LoaderState × List (String × Handle))
  | st, th, [] => .ok (st, th)
  | st, th, (slot, src) :: rest =>
    let hl := textureHandleLabel mat slot src
    match List.lookup hl st.textures with
    | some h => resolveTextureHandles mat st (insertA th slot h) rest
    | none =>
      match
        (match src with
         | .processed img => .ok (st, img)
         | .handle t => get_texture st t :
          Except LoadError (LoaderState × Image)) with
      | .error e => .error e
      | .ok (st', img) =>
        let p := add_labeled_asset st' hl
        let st'' := { p.2 with
                      textures := insertA p.2.textures hl p.1,
                      textureAssets := insertA p.2.textureAssets hl img }
        resolveTextureHandles mat st'' (insertA th slot p.1) rest

/-- Embedding of `Loader::run_loader` (src/loader.rs lines 521-591):
load the dynamic slots, let the loader preprocess them, chain the
processed images with the present static slots, resolve all of them to
handles (with caching), and hand the handle map to the loader's
`with_textures`.  The `loaderRuns` increment is instrumentation counting
`run_loader` invocations. -/
def run_loader (st : LoaderState) (mat : MaterialObj) (l : MaterialLoader) :
    Except LoadError (LoaderState × Option StandardMaterial) :=
  let st₀ := { st with loaderRuns := st.loaderRuns + 1 }
  match loadDynamicTextures mat st₀ l.dynamic_load [] with
  | .error e => .error e
  | .ok (st₁, textures) =>
    let textures := l.preprocess_textures mat textures
    let sources :=
      textures.map (fun p => (p.1, TextureSource.processed p.2))
        ++ l.static_load.filterMap
            (fun lab => (mat.load_texture lab).map
              (fun t => (lab, TextureSource.handle t)))
    match resolveTextureHandles mat st₁ [] sources with
    | .error e => .error e
    | .ok (st₂, texture_handles) =>
      .ok (st₂, l.with_textures mat texture_handles)

/-- The material cache label (src/loader.rs lines 635-638). -/
def materialLabel (mat : MaterialObj) : String :=
  match mat.name with
  | some n =>
    if n = "" then "FbxMaterial" ++ toString mat.mid
    else "FbxMaterial@" ++ n
  | none => "FbxMaterial" ++ toString mat.mid

/-- The loader-chain loop of `load_material` (src/loader.rs lines
646-653): try each loader in registration order; the first one whose
result is `Some` wins and the loop breaks. -/
def tryLoaders (mat : MaterialObj) :
    LoaderState → List MaterialLoader →
      Except LoadError (LoaderState × Option StandardMaterial)
  | st, [] => .ok (st, none)
  | st, l :: ls =>
    match run_loader st mat l with
    | .error e => .error e
    | .ok (st', some m) => .ok (st', some m)
    | .ok (st', none) => tryLoaders mat st' ls

/-- `allFail mat st ls st'` holds when every loader in `ls`, run in order
from state `st`, succeeds but produces no material, ending in state
`st'`. -/
def allFail (mat : MaterialObj) :
    LoaderState → List MaterialLoader → LoaderState → Prop
  | st, [], st' => st' = st
  | st, l :: ls, st' =>
    ∃ stm, run_loader st mat l = .ok (stm, none) ∧ allFail mat stm ls st'

/-- Embedding of `Loader::load_material` (src/loader.rs lines 631-662):
a cache hit returns a weak clone of the cached handle; otherwise the
loader chain runs, a `None` outcome is the no-loader error, and a
produced material is registered and cached under the material label. -/
def load_material (st : LoaderState) (loaders : List MaterialLoader)
    (mat : MaterialObj) : Except LoadError (LoaderState × Handle) :=
  let label := materialLabel mat
  match List.lookup label st.materials with
  | some handle => .ok (st, handle.clone_weak)
  | none =>
    match tryLoaders mat st loaders with
    | .error e => .error e
    | .ok (_, none) => .error .noMaterialLoader
    | .ok (st', some m) =>
      let p := add_labeled_asset st' label
      let st'' := { p.2 with
                    materials := insertA p.2.materials label p.1,
                    materialAssets := insertA p.2.materialAssets label m }
      .ok (st'', p.1)

/-- A raw mesh model object as consumed by `load_mesh`: name/id, its
referenced material objects, and its geometry (fallible accessor). -/
structure MeshModel where
  name : Option String
  oid : Nat
  materialObjs : List MaterialObj
  geometry : Option MeshGeometry

/-- The mesh asset label (src/loader.rs lines 431-435); note: unlike the
other labels, an empty name still selects the `@`-form. -/
def meshLabel (m : MeshModel) : String :=
  match m.name with
  | some n => "FbxMesh@" ++ n
  | none => "FbxMesh" ++ toString m.oid

/-- The material loop of `load_mesh` (src/loader.rs lines 443-448): each
referenced material is resolved in order; any failure aborts the mesh. -/
def loadMaterials (loaders : List MaterialLoader) :
    LoaderState → List MaterialObj →
      Except LoadError (LoaderState × List Handle)
  | st, [] => .ok (st, [])
  | st, mo :: rest =>
    match load_material st loaders mo with
    | .error e => .error e
    | .ok (st', h) =>
      match loadMaterials loaders st' rest with
      | .error e => .error e
      | .ok (st'', hs) => .ok (st'', h :: hs)

/-- Embedding of `Loader::load_mesh` (src/loader.rs lines 427-471):
resolve the geometry, resolve all referenced materials, substitute the
placeholder `Handle::default()` when there are none, reconstruct the
per-material bevy meshes, and register the resulting `FbxMesh`. -/
def load_mesh (st : LoaderState) (loaders : List MaterialLoader)
    (m : MeshModel) : Except LoadError (LoaderState × FbxMesh) :=
  let label := meshLabel m
  match m.geometry with
  | none => .error .noGeometry
  | some geo =>
    match loadMaterials loaders st m.materialObjs with
    | .error e => .error e
    | .ok (st₁, mats) =>
      let material_count := mats.length
      let materials := if material_count = 0 then mats ++ [defaultHandle]
        else mats
      match load_bevy_mesh st₁ geo material_count with
      | .error e => .error e
      | .ok (st₂, bevy_mesh_handles) =>
        let mesh : FbxMesh :=
          { name := m.name, bevy_mesh_handles := bevy_mesh_handles,
            materials := materials }
        let p := add_labeled_asset st₂ label
        let st₃ := { p.2 with meshes := (m.oid, p.1) :: p.2.meshes }
        .ok (st₃, mesh)

/-! ## Lemmas about mesh and material loading -/

theorem loadMaterials_length (loaders : List MaterialLoader)
    (ms : List MaterialObj) (st st' : LoaderState) (hs : List Handle)
    (h : loadMaterials loaders st ms = .ok (st', hs)) :
    hs.length = ms.length := by
  induction ms generalizing st hs with
  | nil =>
    rw [loadMaterials] at h
    cases h
    rfl
  | cons mo rest ih =>
    rw [loadMaterials] at h
    split at h
    · cases h
    · split at h
      · cases h
      · rename_i st₂ hs₂ hrest
        cases h
        simp [ih _ _ hrest]

theorem load_bevy_mesh_handles_length (st : LoaderState) (g : MeshGeometry)
    (M : Nat) (st' : LoaderState) (hs : List Handle)
    (h : load_bevy_mesh st g M = .ok (st', hs)) :
    hs.length = if M = 0 then 1 else M := by
  simp only [load_bevy_mesh] at h
  split at h
  · cases h
  · split at h
    · cases h
    · split at h
      · cases h
      · rename_i ps hps
        split at h
        · cases h
        · split at h
          · cases h
          · rename_i ns hns
            split at h
            · cases h
            · rename_i us hus
              split at h
              · cases h
              · split at h
                · cases h
                · rename_i per hper
                  split at h
                  · cases h
                  · have hpair := Except.ok.inj h
                    have hhs := (congrArg Prod.snd hpair).symm
                    simp only at hhs
                    rw [hhs, registerPrimitivesGo_snd_length]
                    rw [indicesPerMaterial] at hper
                    split at hper
                    · rename_i hM0
                      have hper' := Except.ok.inj hper
                      rw [← hper', hM0]
                      simp
                    · rename_i hM0
                      split at hper
                      · cases hper
                      · rename_i mf hmf
                        split at hper
                        · cases hper
                        · rename_i lists hpart
                          have hper' := Except.ok.inj hper
                          rw [← hper']
                          simp only [Option.getD_some, if_neg hM0]
                          have := partitionGo_length mf M _ _ _ hpart
                          simpa using this

/-- **C2**: A successfully loaded mesh with `M` referenced materials
satisfies `len(bevy_mesh_handles) = len(materials) = max(1, M)`, and a
mesh with zero materials gets exactly the placeholder `Handle::default()`
as its single material entry. -/
theorem mesh_primitive_material_counts (st : LoaderState)
    (loaders : List MaterialLoader) (m : MeshModel) (st' : LoaderState)
    (mesh : FbxMesh) (h : load_mesh st loaders m = .ok (st', mesh)) :
    mesh.bevy_mesh_handles.length = mesh.materials.length
    ∧ mesh.materials.length = max 1 m.materialObjs.length
    ∧ (m.materialObjs = [] → mesh.materials = [defaultHandle]) := by
  simp only [load_mesh] at h
  split at h
  · cases h
  · rename_i geo hgeo
    split at h
    · cases h
    · rename_i st₁ mats hmats
      split at h
      · cases h
      · rename_i st₂ hs hbm
        have hpair := Except.ok.inj h
        have hmesh := (congrArg Prod.snd hpair).symm
        simp only at hmesh
        have hml := loadMaterials_length loaders m.materialObjs st st₁ mats
          hmats
        have hbl := load_bevy_mesh_handles_length st₁ geo mats.length st₂ hs
          hbm
        subst hmesh
        by_cases hz : mats.length = 0
        · have hmats0 : mats = [] := List.length_eq_zero.mp hz
        -- zero materials: one placeholder entry and one primitive
          refine ⟨?_, ?_, ?_⟩
          · simp [hz, hmats0, hbl]
          · simp [hz, hmats0, ← hml]
          · intro _
            simp [hz, hmats0]
        · refine ⟨?_, ?_, ?_⟩
          · simp [hz, hbl]
          · rw [← hml]
            simp only [if_neg hz]
            omega
          · intro hnil
            rw [hnil] at hml
            simp at hml
            exact absurd (by simp [hml] : mats.length = 0) hz

/-! ### Concrete successful load used by the C2 witness -/

def m2 : MeshModel :=
  { name := some "w", oid := 20, materialObjs := [], geometry := some exG10 }

def pG10 : List Vec3 := [(0, 0, 0), (0, 0, 0), (0, 0, 0)]

def nG10 : List Vec3 := [(0, 0, 1), (0, 0, 1), (0, 0, 1)]

def uG10 : List Vec2 := [(0, 1), (0, 1), (0, 1)]

def hG10 : Handle := { id := "FbxMesh11/Primitive0", strong := true }

def stG10 : LoaderState :=
  { LoaderState.empty with
    assets := ["FbxMesh11/Primitive0"],
    bevy_meshes := [(hG10, "FbxMesh11/Primitive0")],
    meshAssets := [("FbxMesh11/Primitive0",
      { positions := pG10, uv := uG10, normals := nG10,
        indices := [0, 1, 2] })] }

theorem load_bevy_mesh_exG10 :
    load_bevy_mesh LoaderState.empty exG10 0 = .ok (stG10, [hG10]) := by
  rw [load_bevy_mesh_reduce LoaderState.empty exG10 0 pG10 nG10 uG10
    rfl rfl rfl (by decide) (by decide) resolveUVs_exG10 (by decide)
    (by decide)]
  rw [show indicesPerMaterial exG10 0 = .ok none from rfl]
  rfl

def meshW : FbxMesh :=
  { name := some "w", bevy_mesh_handles := [hG10],
    materials := [defaultHandle] }

def stW : LoaderState :=
  { stG10 with
    assets := stG10.assets ++ ["FbxMesh@w"],
    meshes := [(20, { id := "FbxMesh@w", strong := true })] }

theorem load_mesh_m2 : load_mesh LoaderState.empty [] m2 = .ok (stW, meshW) := by
  simp only [load_mesh, m2, loadMaterials, List.length_nil]
  rw [load_bevy_mesh_exG10]
  rfl

/-- Witness for C2: a mesh with zero materials loads with exactly one
primitive handle and the single placeholder material handle. -/
theorem mesh_primitive_material_counts_witness :
    meshW.bevy_mesh_handles.length = meshW.materials.length
    ∧ meshW.materials.length = max 1 m2.materialObjs.length
    ∧ meshW.materials = [defaultHandle] := by
  have h := mesh_primitive_material_counts LoaderState.empty [] m2 stW
    meshW load_mesh_m2
  exact ⟨h.1, h.2.1, h.2.2 rfl⟩

/-! ## Material and texture caching lemmas -/

theorem lookup_insertA {α : Type} (m : List (String × α)) (k : String)
    (v : α) : List.lookup k (insertA m k v) = some v := by
  simp [insertA, List.lookup]

theorem tryLoaders_cons_some (mat : MaterialObj) (st : LoaderState)
    (l : MaterialLoader) (ls : List MaterialLoader) (st' : LoaderState)
    (m : StandardMaterial) (h : run_loader st mat l = .ok (st', some m)) :
    tryLoaders mat st (l :: ls) = .ok (st', some m) := by
  rw [tryLoaders, h]

theorem tryLoaders_cons_none (mat : MaterialObj) (st : LoaderState)
    (l : MaterialLoader) (ls : List MaterialLoader) (st' : LoaderState)
    (h : run_loader st mat l = .ok (st', none)) :
    tryLoaders mat st (l :: ls) = tryLoaders mat st' ls := by
  rw [tryLoaders, h]

/-- **C6**: On a cache miss the configured loaders are tried in
registration order: after any prefix of loaders that produced no material,
the first loader whose result is `some` wins and the result does not
depend on the loaders after it; if every loader produces no material, the
material resolution fails with the no-loader error. -/
theorem loader_chain_first_success_wins (mat : MaterialObj) :
    (∀ st pre post l st₁ st₂ m, allFail mat st pre st₁ →
        run_loader st₁ mat l = .ok (st₂, some m) →
        tryLoaders mat st (pre ++ l :: post) = .ok (st₂, some m))
    ∧ (∀ st loaders st', allFail mat st loaders st' →
        List.lookup (materialLabel mat) st.materials = none →
        load_material st loaders mat = .error .noMaterialLoader) := by
  have htry : ∀ loaders st st', allFail mat st loaders st' →
      tryLoaders mat st loaders = .ok (st', none) := by
    intro loaders
    induction loaders with
    | nil =>
      intro st st' hfail
      have hst : st' = st := hfail
      subst hst
      rfl
    | cons l ls ih =>
      intro st st' hfail
      obtain ⟨stm, hrun, hrest⟩ := hfail
      rw [tryLoaders_cons_none mat st l ls stm hrun]
      exact ih stm st' hrest
  constructor
  · intro st pre post l st₁ st₂ m hfail hwin
    induction pre generalizing st with
    | nil =>
      have hst : st₁ = st := hfail
      subst hst
      rw [List.nil_append]
      exact tryLoaders_cons_some mat st₁ l post st₂ m hwin
    | cons l₀ pre ih =>
      obtain ⟨stm, hrun, hrest⟩ := hfail
      rw [List.cons_append, tryLoaders_cons_none mat st l₀ _ stm hrun]
      exact ih stm hrest
  · intro st loaders st' hfail hnone
    simp only [load_material, hnone, htry loaders st st' hfail]

/-! ### Concrete material loaders used by the C6 witness -/

def mat6 : MaterialObj :=
  { name := some "m6", mid := 6, load_texture := fun _ => none }

def ldNone : MaterialLoader :=
  { static_load := [], dynamic_load := [],
    preprocess_textures := fun _ ts => ts,
    with_textures := fun _ _ => none }

def ldSome : MaterialLoader :=
  { static_load := [], dynamic_load := [],
    preprocess_textures := fun _ ts => ts,
    with_textures := fun _ _ => some 42 }

def ldOther : MaterialLoader :=
  { static_load := [], dynamic_load := [],
    preprocess_textures := fun _ ts => ts,
    with_textures := fun _ _ => some 99 }

def st6a : LoaderState := { LoaderState.empty with loaderRuns := 1 }

def st6b : LoaderState := { LoaderState.empty with loaderRuns := 2 }

/-- Witness for C6: after one failing loader, `ldSome` wins and `ldOther`
is never reached; a chain of only failing loaders yields the no-loader
error. -/
theorem loader_chain_first_success_wins_witness :
    tryLoaders mat6 LoaderState.empty ([ldNone] ++ ldSome :: [ldOther]) =
      .ok (st6b, some 42)
    ∧ load_material LoaderState.empty [ldNone] mat6 =
        .error .noMaterialLoader := by
  have h := loader_chain_first_success_wins mat6
  refine ⟨h.1 LoaderState.empty [ldNone] [ldOther] ldSome st6a st6b 42
    ⟨st6a, rfl, rfl⟩ rfl, ?_⟩
  exact h.2 LoaderState.empty [ldNone] st6a ⟨st6a, rfl, rfl⟩ rfl

/-- **C5 (amended)**: After any successful material resolution, the
material's label is cached, and resolving the same material again returns
a *weak clone* of the cached handle — a handle to the same asset (equal
asset id) — leaving the state (including the `loaderRuns` counter)
unchanged, i.e. without running any material loader. -/
theorem material_cache_hit_same_asset (st : LoaderState)
    (loaders : List MaterialLoader) (mat : MaterialObj) (st₁ : LoaderState)
    (h₁ : Handle) (h : load_material st loaders mat = .ok (st₁, h₁)) :
    ∃ ch, List.lookup (materialLabel mat) st₁.materials = some ch
      ∧ ch.id = h₁.id
      ∧ load_material st₁ loaders mat = .ok (st₁, ch.clone_weak) := by
  simp only [load_material] at h
  split at h
  · rename_i cached hl
    have hpair := Except.ok.inj h
    have hst : st = st₁ := congrArg Prod.fst hpair
    have hh : cached.clone_weak = h₁ := congrArg Prod.snd hpair
    subst hst
    refine ⟨cached, hl, ?_, ?_⟩
    · rw [← hh]
      rfl
    · simp only [load_material, hl]
  · rename_i hl
    split at h
    · cases h
    · cases h
    · rename_i st' m htry
      have hpair := Except.ok.inj h
      have hst := congrArg Prod.fst hpair
      have hh := congrArg Prod.snd hpair
      simp only at hst hh
      subst hst
      subst hh
      refine ⟨(add_labeled_asset st' (materialLabel mat)).1, ?_, rfl, ?_⟩
      · exact lookup_insertA _ _ _
      · simp only [load_material, lookup_insertA]

/-! ### Concrete cached material used by the C5 counterexample/witness -/

def mat5 : MaterialObj :=
  { name := some "m5", mid := 5, load_texture := fun _ => none }

def cached5 : Handle := { id := "FbxMaterial@m5", strong := true }

def stc5 : LoaderState :=
  { LoaderState.empty with materials := [("FbxMaterial@m5", cached5)] }

/-- Counterexample to C5 as stated: with the strong handle `cached5` in
the cache, a second resolution of the same material returns
`cached5.clone_weak` — a *different* handle value (weak, not strong) —
so the returned handle is not *identical* to the cached one, only its
asset id matches. -/
theorem material_cache_hit_not_identical :
    List.lookup (materialLabel mat5) stc5.materials = some cached5
    ∧ load_material stc5 [] mat5 =
        .ok (stc5, { id := "FbxMaterial@m5", strong := false })
    ∧ ({ id := "FbxMaterial@m5", strong := false } : Handle) ≠ cached5 :=
  ⟨rfl, rfl, by decide⟩

/-- Witness for the amended C5 at the concrete cached state `stc5`. -/
theorem material_cache_hit_same_asset_witness :
    load_material stc5 [] mat5 = .ok (stc5, cached5.clone_weak)
    ∧ cached5.clone_weak.id = cached5.id := by
  have h := material_cache_hit_same_asset stc5 [] mat5 stc5
    cached5.clone_weak rfl
  obtain ⟨ch, hlk, hid, hcall⟩ := h
  have hch : ch = cached5 := by
    have hlk' : List.lookup (materialLabel mat5) stc5.materials =
        some cached5 := rfl
    rw [hlk'] at hlk
    exact (Option.some.inj hlk).symm
  rw [hch] at hcall
  exact ⟨hcall, rfl⟩

/-- **C8 (amended)**: In the texture-handle resolution step, a source
whose derived label is already cached resolves to the cached handle with
the loader state unchanged — no image is decoded and no asset is
registered in that step; consequently a whole source list of cache hits
leaves the state untouched.  (Dynamic/preprocessed slots, however, are
decoded during the gathering step *before* this cache is consulted — see
the counterexample.) -/
theorem texture_cache_hit_reuses_handle (mat : MaterialObj) :
    (∀ slot src rest st th h,
        List.lookup (textureHandleLabel mat slot src) st.textures =
          some h →
        resolveTextureHandles mat st th ((slot, src) :: rest) =
          resolveTextureHandles mat st (insertA th slot h) rest)
    ∧ (∀ sources st th,
        (∀ p ∈ sources,
          (List.lookup (textureHandleLabel mat p.1 p.2)
            st.textures).isSome = true) →
        ∃ th', resolveTextureHandles mat st th sources = .ok (st, th')) := by
  have hstep : ∀ slot src rest st th h,
      List.lookup (textureHandleLabel mat slot src) st.textures = some h →
      resolveTextureHandles mat st th ((slot, src) :: rest) =
        resolveTextureHandles mat st (insertA th slot h) rest := by
    intro slot src rest st th h hc
    simp only [resolveTextureHandles, hc]
  refine ⟨hstep, ?_⟩
  intro sources
  induction sources with
  | nil =>
    intro st th hc
    exact ⟨th, rfl⟩
  | cons p rest ih =>
    intro st th hc
    obtain ⟨slot, src⟩ := p
    have hh := hc (slot, src) (List.mem_cons_self _ _)
    obtain ⟨h, hsome⟩ := Option.isSome_iff_exists.mp hh
    rw [hstep slot src rest st th h hsome]
    exact ih st (insertA th slot h)
      (fun q hq => hc q (List.mem_cons_of_mem _ hq))

/-! ### Concrete cached textures used by the C8 witness and
counterexample -/

def tex8 : TextureObj :=
  { name := some "t8", tid := 80, wrapModeU := some .Repeat,
    wrapModeV := some .Repeat,
    videoClip := some { vid := 9, decoded := some 5 } }

def hc8 : Handle := { id := "FbxTexture@t8", strong := true }

def mat8 : MaterialObj :=
  { name := some "m8", mid := 8,
    load_texture := fun s => if s = "base" then some tex8 else none }

def st8 : LoaderState :=
  { LoaderState.empty with textures := [("FbxTexture@t8", hc8)] }

/-- Witness for the amended C8: a cached static texture resolves to the
cached handle with the state (decode log included) unchanged. -/
theorem texture_cache_hit_reuses_handle_witness :
    resolveTextureHandles mat8 st8 [] [("base", TextureSource.handle tex8)]
      = .ok (st8, insertA [] "base" hc8) := by
  have h := (texture_cache_hit_reuses_handle mat8).1 "base"
    (TextureSource.handle tex8) [] st8 [] hc8 rfl
  rw [h]
  rfl

def texd8 : TextureObj :=
  { name := some "t", tid := 70, wrapModeU := some .Repeat,
    wrapModeV := some .Repeat,
    videoClip := some { vid := 7, decoded := some 99 } }

def matd8 : MaterialObj :=
  { name := some "m8d", mid := 81,
    load_texture := fun s => if s = "base" then some texd8 else none }

def ld8 : MaterialLoader :=
  { static_load := [], dynamic_load := ["base"],
    preprocess_textures := fun _ ts => ts,
    with_textures := fun _ _ => some 0 }

def std8 : LoaderState :=
  { LoaderState.empty with
    textures := [("FbxTextureMat@m8d/base",
      { id := "FbxTextureMat@m8d/base", strong := true })] }

/-- Counterexample to C8 as stated: the texture behind the dynamic slot
`"base"` has its label already cached, and step 3 does return the cached
handle — yet the image bytes are decoded again (the decode log grows from
`[]` to `[7]`), because dynamic slots are loaded before the cache is
consulted. -/
theorem texture_dynamic_redecode_counterexample :
    List.lookup "FbxTextureMat@m8d/base" std8.textures =
      some { id := "FbxTextureMat@m8d/base", strong := true }
    ∧ run_loader std8 matd8 ld8 =
        .ok ({ std8 with decodeLog := [7], loaderRuns := 1 }, some 0)
    ∧ ({ std8 with decodeLog := [7], loaderRuns := 1 } : LoaderState).decodeLog ≠ std8.decodeLog :=
  ⟨rfl, rfl, by decide⟩

end BevyModFbx
